import Mathlib

/-!
Shallow embedding of the fastcaster rendering core (src/main.rs).

Floating-point (`f32`) arithmetic is idealized as real arithmetic; `sqrt`
is `Real.sqrt`.  Randomness (the `rand` crate, external to the repository)
is modelled as explicit sample streams: `Rng.balls n` stands for the n-th
value produced by `rand_vec3_in_unit_sphere`'s rejection loop and
`Rng.floats n` for the n-th `gen::<f32>()` draw.
-/

noncomputable section

/-- Embeds `vek::Vec3<f32>`: three-component vector. -/
structure Vec3 where
  x : ℝ
  y : ℝ
  z : ℝ

attribute [ext] Vec3

namespace Vec3

instance : Add Vec3 := ⟨fun a b => ⟨a.x + b.x, a.y + b.y, a.z + b.z⟩⟩

instance : Sub Vec3 := ⟨fun a b => ⟨a.x - b.x, a.y - b.y, a.z - b.z⟩⟩

instance : Neg Vec3 := ⟨fun a => ⟨-a.x, -a.y, -a.z⟩⟩

instance : SMul ℝ Vec3 := ⟨fun t a => ⟨t * a.x, t * a.y, t * a.z⟩⟩

instance : HDiv Vec3 ℝ Vec3 := ⟨fun a t => ⟨a.x / t, a.y / t, a.z / t⟩⟩

@[simp] theorem add_x (a b : Vec3) : (a + b).x = a.x + b.x := rfl
@[simp] theorem add_y (a b : Vec3) : (a + b).y = a.y + b.y := rfl
@[simp] theorem add_z (a b : Vec3) : (a + b).z = a.z + b.z := rfl
@[simp] theorem sub_x (a b : Vec3) : (a - b).x = a.x - b.x := rfl
@[simp] theorem sub_y (a b : Vec3) : (a - b).y = a.y - b.y := rfl
@[simp] theorem sub_z (a b : Vec3) : (a - b).z = a.z - b.z := rfl
@[simp] theorem neg_x (a : Vec3) : (-a).x = -a.x := rfl
@[simp] theorem neg_y (a : Vec3) : (-a).y = -a.y := rfl
@[simp] theorem neg_z (a : Vec3) : (-a).z = -a.z := rfl
@[simp] theorem smul_x (t : ℝ) (a : Vec3) : (t • a).x = t * a.x := rfl
@[simp] theorem smul_y (t : ℝ) (a : Vec3) : (t • a).y = t * a.y := rfl
@[simp] theorem smul_z (t : ℝ) (a : Vec3) : (t • a).z = t * a.z := rfl
@[simp] theorem div_x (a : Vec3) (t : ℝ) : (a / t).x = a.x / t := rfl
@[simp] theorem div_y (a : Vec3) (t : ℝ) : (a / t).y = a.y / t := rfl
@[simp] theorem div_z (a : Vec3) (t : ℝ) : (a / t).z = a.z / t := rfl

/-- From `vek`: `Vec3::broadcast(v)`. -/
def broadcast (v : ℝ) : Vec3 := ⟨v, v, v⟩

@[simp] theorem broadcast_x (v : ℝ) : (broadcast v).x = v := rfl
@[simp] theorem broadcast_y (v : ℝ) : (broadcast v).y = v := rfl
@[simp] theorem broadcast_z (v : ℝ) : (broadcast v).z = v := rfl

/-- From `vek`: `Vec3::dot`. -/
def dot (a b : Vec3) : ℝ := a.x * b.x + a.y * b.y + a.z * b.z

/-- From `vek`: `Vec3::magnitude_squared` (`dot` of a vector with itself). -/
def magnitude_squared (a : Vec3) : ℝ := dot a a

/-- From `vek`: `Vec3::magnitude`. -/
def magnitude (a : Vec3) : ℝ := Real.sqrt (magnitude_squared a)

/-- From `vek`: `Vec3::normalized` (componentwise division by the magnitude). -/
def normalized (a : Vec3) : Vec3 := a / magnitude a

theorem dot_self_nonneg (a : Vec3) : 0 ≤ dot a a := by
  have hx := sq_nonneg a.x
  have hy := sq_nonneg a.y
  have hz := sq_nonneg a.z
  simp only [dot]
  nlinarith

theorem magnitude_sq (a : Vec3) : magnitude a * magnitude a = dot a a := by
  simpa [magnitude, magnitude_squared] using
    Real.mul_self_sqrt (dot_self_nonneg a)

theorem dot_self_of_magnitude_eq_one (a : Vec3) (h : magnitude a = 1) :
    dot a a = 1 := by
  have := magnitude_sq a
  rw [h] at this
  linarith

/-- A vector of nonzero magnitude normalizes to a unit-magnitude vector. -/
theorem magnitude_normalized (a : Vec3) (h : magnitude a ≠ 0) :
    magnitude (normalized a) = 1 := by
  have hsq : magnitude a * magnitude a = dot a a := magnitude_sq a
  have hm : (0:ℝ) ≤ magnitude a := Real.sqrt_nonneg _
  have hmpos : 0 < magnitude a := lt_of_le_of_ne hm (Ne.symm h)
  have : dot (normalized a) (normalized a) = 1 := by
    simp only [normalized, dot, div_x, div_y, div_z]
    field_simp
    simp only [dot] at hsq
    nlinarith
  simp [magnitude, magnitude_squared, this]

end Vec3

/-- Embeds `vek::Rgb<f32>`: a three-channel color. -/
structure Rgb where
  r : ℝ
  g : ℝ
  b : ℝ

attribute [ext] Rgb

namespace Rgb

instance : Add Rgb := ⟨fun a c => ⟨a.r + c.r, a.g + c.g, a.b + c.b⟩⟩

instance : Mul Rgb := ⟨fun a c => ⟨a.r * c.r, a.g * c.g, a.b * c.b⟩⟩

instance : Sub Rgb := ⟨fun a c => ⟨a.r - c.r, a.g - c.g, a.b - c.b⟩⟩

instance : HDiv Rgb ℝ Rgb := ⟨fun a t => ⟨a.r / t, a.g / t, a.b / t⟩⟩

@[simp] theorem add_r (a c : Rgb) : (a + c).r = a.r + c.r := rfl
@[simp] theorem add_g (a c : Rgb) : (a + c).g = a.g + c.g := rfl
@[simp] theorem add_b (a c : Rgb) : (a + c).b = a.b + c.b := rfl
@[simp] theorem mul_r (a c : Rgb) : (a * c).r = a.r * c.r := rfl
@[simp] theorem mul_g (a c : Rgb) : (a * c).g = a.g * c.g := rfl
@[simp] theorem mul_b (a c : Rgb) : (a * c).b = a.b * c.b := rfl
@[simp] theorem sub_r (a c : Rgb) : (a - c).r = a.r - c.r := rfl
@[simp] theorem sub_g (a c : Rgb) : (a - c).g = a.g - c.g := rfl
@[simp] theorem sub_b (a c : Rgb) : (a - c).b = a.b - c.b := rfl
@[simp] theorem div_r (a : Rgb) (t : ℝ) : (a / t).r = a.r / t := rfl
@[simp] theorem div_g (a : Rgb) (t : ℝ) : (a / t).g = a.g / t := rfl
@[simp] theorem div_b (a : Rgb) (t : ℝ) : (a / t).b = a.b / t := rfl

/-- From `vek`: `Rgb::broadcast(v)`. -/
def broadcast (v : ℝ) : Rgb := ⟨v, v, v⟩

@[simp] theorem broadcast_r (v : ℝ) : (broadcast v).r = v := rfl
@[simp] theorem broadcast_g (v : ℝ) : (broadcast v).g = v := rfl
@[simp] theorem broadcast_b (v : ℝ) : (broadcast v).b = v := rfl

/-- From `vek`: `Rgb::map` (componentwise). -/
def map (f : ℝ → ℝ) (a : Rgb) : Rgb := ⟨f a.r, f a.g, f a.b⟩

/-- From `vek`: `f32::clamped01`, used by `Lerp::lerp` on the factor. -/
def clamp01 (v : ℝ) : ℝ := max 0 (min 1 v)

/-- From `vek`: the clamped `Lerp::lerp` on `Rgb<f32>`:
`from + (to - from) * factor.clamped01()`, componentwise. -/
def lerp (src dst : Rgb) (factor : ℝ) : Rgb :=
  src + (dst - src) * broadcast (clamp01 factor)

end Rgb

/-- Embeds `vek::Ray<f32>`: origin plus direction. -/
structure Ray where
  origin : Vec3
  direction : Vec3

/-- Embeds `HitRecord` (src/main.rs lines 70-75). -/
structure HitRecord where
  intersection_point : Vec3
  surface_normal : Vec3
  distance : ℝ

/-- Embeds `MaterialType` (src/main.rs lines 24-28). -/
inductive MaterialType where
  | lambertian : MaterialType
  | metal (fuzz : ℝ) : MaterialType

/-- Embeds `Material` (src/main.rs lines 30-34). -/
structure Material where
  color : Rgb
  mat_type : MaterialType

/-- Embeds `Sphere` (src/main.rs lines 36-41). -/
structure Sphere where
  origin : Vec3
  radius : ℝ
  material : Material

/-- Embeds `World` (src/main.rs lines 42-44): the scene's ordered sphere list. -/
structure World where
  spheres : List Sphere

/-- src/main.rs line 77. -/
def SHADOW_ACNE_FUDGE_CONSTANT : ℝ := 0.001

/-- src/main.rs line 142. -/
def MAX_DEPTH : ℕ := 100

/-- The random-sample source threaded through the tracer.  `balls n` is the
n-th result of `rand_vec3_in_unit_sphere` (the rejection loop of
src/main.rs lines 88-97, abstracted as a stream) and `floats n` the n-th
`gen::<f32>()` draw; the indices advance as samples are consumed. -/
structure Rng where
  balls : ℕ → Vec3
  floats : ℕ → ℝ
  bIdx : ℕ
  fIdx : ℕ

namespace Rng

/-- Embeds `RandVec::rand_vec3_in_unit_sphere` (src/main.rs lines 88-97): the next
unit-ball sample of the stream. -/
def rand_vec3_in_unit_sphere (rng : Rng) : Vec3 × Rng :=
  (rng.balls rng.bIdx, { rng with bIdx := rng.bIdx + 1 })

/-- Embeds `RandVec::rand_unit_vec3` (src/main.rs lines 99-101): a unit-ball sample,
normalized. -/
def rand_unit_vec3 (rng : Rng) : Vec3 × Rng :=
  let drawn := rng.rand_vec3_in_unit_sphere
  (drawn.1.normalized, drawn.2)

/-- Embeds `Rng::gen::<f32>()`: the next uniform `[0,1)` draw of the stream. -/
def genFloat (rng : Rng) : ℝ × Rng :=
  (rng.floats rng.fIdx, { rng with fIdx := rng.fIdx + 1 })

end Rng

/-- Embeds `hit_sphere` (src/main.rs lines 115-141). -/
def hit_sphere (ray : Ray) (sphere : Sphere) : Option HitRecord :=
  let oc := ray.origin - sphere.origin
  let a := ray.direction.dot ray.direction
  let b := 2 * oc.dot ray.direction
  let c := oc.dot oc - sphere.radius * sphere.radius
  let discriminant := b * b - 4 * a * c
  if discriminant > 0 then
    let neg_distance := (-b - Real.sqrt discriminant) / (2 * a)
    let pos_distance := (-b + Real.sqrt discriminant) / (2 * a)
    let mk := fun (distance : ℝ) =>
      let intersection_point := ray.origin + distance • ray.direction
      let surface_normal := (intersection_point - sphere.origin).normalized
      HitRecord.mk intersection_point surface_normal distance
    if neg_distance > SHADOW_ACNE_FUDGE_CONSTANT then
      some (mk neg_distance)
    else if pos_distance > SHADOW_ACNE_FUDGE_CONSTANT then
      some (mk pos_distance)
    else
      none
  else
    none

/-- The discriminant `b*b - 4*a*c` of `hit_sphere`'s quadratic
(src/main.rs lines 116-120). -/
def hitDiscriminant (ray : Ray) (sphere : Sphere) : ℝ :=
  let oc := ray.origin - sphere.origin
  let a := ray.direction.dot ray.direction
  let b := 2 * oc.dot ray.direction
  let c := oc.dot oc - sphere.radius * sphere.radius
  b * b - 4 * a * c

/-- Embeds `neg_distance`, the smaller quadratic root of `hit_sphere`
(src/main.rs line 122). -/
def hitRootNeg (ray : Ray) (sphere : Sphere) : ℝ :=
  let oc := ray.origin - sphere.origin
  let a := ray.direction.dot ray.direction
  let b := 2 * oc.dot ray.direction
  (-b - Real.sqrt (hitDiscriminant ray sphere)) / (2 * a)

/-- Embeds `pos_distance`, the larger quadratic root of `hit_sphere`
(src/main.rs line 123). -/
def hitRootPos (ray : Ray) (sphere : Sphere) : ℝ :=
  let oc := ray.origin - sphere.origin
  let a := ray.direction.dot ray.direction
  let b := 2 * oc.dot ray.direction
  (-b + Real.sqrt (hitDiscriminant ray sphere)) / (2 * a)

/-- Embeds `reflected` (src/main.rs lines 144-146). -/
def reflected (v n : Vec3) : Vec3 := v - (2 * v.dot n) • n

/-- One step of the nearest-hit linear scan (src/main.rs lines 155-165):
keep the incumbent only when its distance is strictly smaller, otherwise
take the new hit. -/
def scanStep (ray : Ray) (acc : Option (HitRecord × Material))
    (sphere : Sphere) : Option (HitRecord × Material) :=
  match hit_sphere ray sphere with
  | none => acc
  | some hit_record =>
    match acc with
    | none => some (hit_record, sphere.material)
    | some (mhr, mcolor) =>
      if mhr.distance < hit_record.distance then some (mhr, mcolor)
      else some (hit_record, sphere.material)

/-- The nearest-hit linear scan of `ray_cast` (src/main.rs lines 153-166):
fold `scanStep` over the scene's spheres in order. -/
def min_hit_record (world : World) (ray : Ray) :
    Option (HitRecord × Material) :=
  world.spheres.foldl (scanStep ray) none

/-- Embeds `background_color` of `ray_cast` (src/main.rs lines 149-150). -/
def background_color (direction : Vec3) : Rgb :=
  let t := 1 - 0.5 * (direction.y + 1)
  Rgb.lerp (Rgb.broadcast 1) ⟨0.5, 0.7, 1⟩ (1 - t)

/-- The bounce loop of `ray_cast` (src/main.rs lines 152-193), fuel =
remaining iterations of `for _ in 0..MAX_DEPTH`; returns the accumulated
color together with the advanced sample streams. -/
def rayCastLoop (world : World) (bg : Rgb) :
    ℕ → Ray → Rng → Rgb → Rgb × Rng
  | 0, _ray, rng, color => (color, rng)
  | fuel + 1, ray, rng, color =>
    match min_hit_record world ray with
    | some (hit_record, hit_material) =>
      let color' := color * hit_material.color
      match hit_material.mat_type with
      | MaterialType.lambertian =>
        let drawn := rng.rand_unit_vec3
        rayCastLoop world bg fuel
          ⟨hit_record.intersection_point,
            (hit_record.surface_normal + drawn.1).normalized⟩
          drawn.2 color'
      | MaterialType.metal fuzz =>
        let drawn := rng.rand_vec3_in_unit_sphere
        let refl := reflected ray.direction hit_record.surface_normal
          + fuzz • drawn.1
        if refl.dot hit_record.surface_normal > 0 then
          rayCastLoop world bg fuel
            ⟨hit_record.intersection_point, refl.normalized⟩ drawn.2 color'
        else
          (color' * Rgb.broadcast 0, drawn.2)
    | none => (color * bg, rng)

/-- Embeds `ray_cast` (src/main.rs lines 148-195): the background gradient is
computed once, from the initial ray, before the loop. -/
def ray_cast (ray : Ray) (world : World) (rng : Rng) : Rgb × Rng :=
  rayCastLoop world (background_color ray.direction) MAX_DEPTH ray rng
    (Rgb.broadcast 1)

/-- The bounce loop as the spec's escape sentence describes it: identical to
`rayCastLoop` except that on escape the gradient is recomputed from the
ray current at that iteration.  Written from the spec's words, to be
compared with the loop translated from the source. -/
def rayCastLoopSpecCurrentSky (world : World) :
    ℕ → Ray → Rng → Rgb → Rgb × Rng
  | 0, _ray, rng, color => (color, rng)
  | fuel + 1, ray, rng, color =>
    match min_hit_record world ray with
    | some (hit_record, hit_material) =>
      let color' := color * hit_material.color
      match hit_material.mat_type with
      | MaterialType.lambertian =>
        let drawn := rng.rand_unit_vec3
        rayCastLoopSpecCurrentSky world fuel
          ⟨hit_record.intersection_point,
            (hit_record.surface_normal + drawn.1).normalized⟩
          drawn.2 color'
      | MaterialType.metal fuzz =>
        let drawn := rng.rand_vec3_in_unit_sphere
        let refl := reflected ray.direction hit_record.surface_normal
          + fuzz • drawn.1
        if refl.dot hit_record.surface_normal > 0 then
          rayCastLoopSpecCurrentSky world fuel
            ⟨hit_record.intersection_point, refl.normalized⟩ drawn.2 color'
        else
          (color' * Rgb.broadcast 0, drawn.2)
    | none => (color * background_color ray.direction, rng)

/-- Defines `ray_cast` as the spec's escape sentence describes it (sky gradient from
the ray that escaped). -/
def ray_cast_spec_current_sky (ray : Ray) (world : World) (rng : Rng) :
    Rgb × Rng :=
  rayCastLoopSpecCurrentSky world MAX_DEPTH ray rng (Rgb.broadcast 1)

/-- Defines `rayCastLoop` instrumented with the number of loop iterations executed
(same structure as the source loop; the count is the only addition). -/
def rayCastLoopCount (world : World) (bg : Rgb) :
    ℕ → Ray → Rng → Rgb → (Rgb × Rng) × ℕ
  | 0, _ray, rng, color => ((color, rng), 0)
  | fuel + 1, ray, rng, color =>
    match min_hit_record world ray with
    | some (hit_record, hit_material) =>
      let color' := color * hit_material.color
      match hit_material.mat_type with
      | MaterialType.lambertian =>
        let drawn := rng.rand_unit_vec3
        let rest := rayCastLoopCount world bg fuel
          ⟨hit_record.intersection_point,
            (hit_record.surface_normal + drawn.1).normalized⟩
          drawn.2 color'
        (rest.1, rest.2 + 1)
      | MaterialType.metal fuzz =>
        let drawn := rng.rand_vec3_in_unit_sphere
        let refl := reflected ray.direction hit_record.surface_normal
          + fuzz • drawn.1
        if refl.dot hit_record.surface_normal > 0 then
          let rest := rayCastLoopCount world bg fuel
            ⟨hit_record.intersection_point, refl.normalized⟩ drawn.2 color'
          (rest.1, rest.2 + 1)
        else
          ((color' * Rgb.broadcast 0, drawn.2), 1)
    | none => ((color * bg, rng), 1)

/-- Defines `ray_cast` instrumented with its bounce-iteration count. -/
def ray_cast_count (ray : Ray) (world : World) (rng : Rng) :
    (Rgb × Rng) × ℕ :=
  rayCastLoopCount world (background_color ray.direction) MAX_DEPTH ray rng
    (Rgb.broadcast 1)

/-- Embeds `Pixel` (src/main.rs lines 17-22); channels are `u8` values. -/
structure Pixel where
  red : ℕ
  green : ℕ
  blue : ℕ

/-- Rust's `f32 as u8`: truncate toward zero, saturating at the bounds
(negative inputs give 0, inputs at least 256 give 255). -/
def f32_as_u8 (v : ℝ) : ℕ := min (max ⌊v⌋ 0).toNat 255

namespace Pixel

/-- Embeds `Pixel::to_u32` (src/main.rs lines 48-53): R in bits 16-23, G in 8-15,
B in 0-7. -/
def to_u32 (p : Pixel) : ℕ :=
  let r_channel := p.red <<< 16
  let g_channel := p.green <<< 8
  let b_channel := p.blue <<< 0
  r_channel ||| g_channel ||| b_channel

/-- Embeds `Pixel::from_vek_color` (src/main.rs lines 56-62): clamp each channel to
`[0,1]`, scale by 255.99 and truncate to `u8`. -/
def from_vek_color (v : Rgb) : Pixel :=
  { red := f32_as_u8 (Rgb.clamp01 v.r * 255.99)
    green := f32_as_u8 (Rgb.clamp01 v.g * 255.99)
    blue := f32_as_u8 (Rgb.clamp01 v.b * 255.99) }

end Pixel

/-- The per-pixel tail of `draw` (src/main.rs lines 236-241): average the
accumulated color over the sample count, gamma-correct each channel by
square root, quantize and pack. -/
def postProcess (accum : Rgb) (sample_count : ℕ) : ℕ :=
  let pixel_color := accum / (sample_count : ℝ)
  let pixel_color := pixel_color.map Real.sqrt
  (Pixel.from_vek_color pixel_color).to_u32

/-- One sample of `draw`'s inner loop (src/main.rs lines 223-235): jitter
`v` then `u`, trace the primary ray, add its color to the accumulator. -/
def drawSample (world : World) (width height : ℕ)
    (upper_left_corner horizontal vertical origin : Vec3)
    (x y : ℕ) (acc : Rgb × Rng) : Rgb × Rng :=
  let jv := acc.2.genFloat
  let v := ((y : ℝ) + jv.1) / ((height : ℝ) - 1)
  let ju := jv.2.genFloat
  let u := ((x : ℝ) + ju.1) / ((width : ℝ) - 1)
  let normalized_direction :=
    (upper_left_corner + u • horizontal + v • vertical - origin).normalized
  let traced := ray_cast ⟨origin, normalized_direction⟩ world ju.2
  (acc.1 + traced.1, traced.2)

/-- Embeds `draw` (src/main.rs lines 200-245) with the machine-entropy seed made an
explicit parameter and the per-pixel `StdRng` construction abstracted as
`mkRng` applied to the 64-bit seed value `wrapping_add(seed, i)`; the
parallel `par_extend` over the index range is modelled as the
order-preserving map it is. -/
def draw (mkRng : ℕ → Rng) (seed : ℕ) (width height : ℕ) (world : World) :
    List ℕ :=
  let aspect := (width : ℝ) / (height : ℝ)
  let viewport_height : ℝ := 2
  let viewport_width := aspect * viewport_height
  let focal_length : ℝ := 1
  let origin := Vec3.broadcast 0
  let horizontal : Vec3 := ⟨viewport_width, 0, 0⟩
  let vertical : Vec3 := ⟨0, -viewport_height, 0⟩
  let upper_left_corner :=
    origin - horizontal / (2:ℝ) - vertical / (2:ℝ) - ⟨0, 0, focal_length⟩
  let sample_count := 4
  (List.range (width * height)).map (fun i =>
    let x := i % width
    let y := i / width
    let rng := mkRng ((seed + i) % 2 ^ 64)
    let sampled := (List.range sample_count).foldl
      (fun acc _ =>
        drawSample world width height upper_left_corner horizontal vertical
          origin x y acc)
      (Rgb.broadcast 0, rng)
    postProcess sampled.1 sample_count)

/-- All channels of a color lie in `[0,1]`. -/
def Rgb.inUnit (c : Rgb) : Prop :=
  0 ≤ c.r ∧ c.r ≤ 1 ∧ 0 ≤ c.g ∧ c.g ≤ 1 ∧ 0 ≤ c.b ∧ c.b ≤ 1

/-! Concrete scenes and rays used to exercise the definitions. -/

/-- A ray from the camera origin straight down the negative z axis. -/
def tieRay : Ray := ⟨Vec3.broadcast 0, ⟨0, 0, -1⟩⟩

/-- Where `tieRay` meets a unit sphere centered at `(0,0,-2)`. -/
def tieHit : HitRecord := ⟨⟨0, 0, -1⟩, ⟨0, 0, 1⟩, 1⟩

def tieMatA : Material := ⟨⟨1, 0, 0⟩, MaterialType.lambertian⟩

def tieMatB : Material := ⟨⟨0, 1, 0⟩, MaterialType.lambertian⟩

def tieSphereA : Sphere := ⟨⟨0, 0, -2⟩, 1, tieMatA⟩

def tieSphereB : Sphere := ⟨⟨0, 0, -2⟩, 1, tieMatB⟩

/-- Two spheres with identical geometry and different materials: every ray
hits both at exactly equal distance. -/
def tieWorld : World := ⟨[tieSphereA, tieSphereB]⟩

def mirrorMat : Material := ⟨⟨1, 1, 1⟩, MaterialType.metal 0⟩

/-- A perfect mirror: fuzz 0, white albedo, centered at `(0,-2,0)`. -/
def mirrorSphere : Sphere := ⟨⟨0, -2, 0⟩, 1, mirrorMat⟩

def mirrorWorld : World := ⟨[mirrorSphere]⟩

/-- A ray fired straight down: hits `mirrorSphere` head-on and reflects
straight up. -/
def mirrorRay : Ray := ⟨Vec3.broadcast 0, ⟨0, -1, 0⟩⟩

def mirrorHit : HitRecord := ⟨⟨0, -1, 0⟩, ⟨0, 1, 0⟩, 1⟩

/-- The reflected ray leaving `mirrorSphere` straight up. -/
def mirrorRay2 : Ray := ⟨⟨0, -1, 0⟩, ⟨0, 1, 0⟩⟩

/-- A concrete sample source: every unit-ball sample is the zero vector and
every uniform draw is 0. -/
def constRng : Rng := ⟨fun _ => Vec3.broadcast 0, fun _ => 0, 0, 0⟩

theorem sqrt_four : Real.sqrt 4 = 2 := by
  rw [show (4:ℝ) = 2 ^ 2 by norm_num, Real.sqrt_sq (by norm_num)]

theorem hit_tie (m : Material) :
    hit_sphere tieRay ⟨⟨0, 0, -2⟩, 1, m⟩ = some tieHit := by
  simp only [hit_sphere, tieRay, tieHit, Vec3.dot, Vec3.broadcast,
    Vec3.sub_x, Vec3.sub_y, Vec3.sub_z, SHADOW_ACNE_FUDGE_CONSTANT]
  norm_num [sqrt_four, Vec3.normalized, Vec3.magnitude, Vec3.magnitude_squared,
    Vec3.dot]
  constructor <;> (ext <;> simp <;> norm_num)

theorem min_tie : min_hit_record tieWorld tieRay = some (tieHit, tieMatB) := by
  simp only [min_hit_record, tieWorld, List.foldl, tieSphereA, tieSphereB,
    scanStep, hit_tie]
  norm_num

theorem hit_mirror (m : Material) :
    hit_sphere mirrorRay ⟨⟨0, -2, 0⟩, 1, m⟩ = some mirrorHit := by
  simp only [hit_sphere, mirrorRay, mirrorHit,
    Vec3.dot, Vec3.broadcast, Vec3.sub_x, Vec3.sub_y, Vec3.sub_z,
    SHADOW_ACNE_FUDGE_CONSTANT]
  norm_num [sqrt_four, Vec3.normalized, Vec3.magnitude, Vec3.magnitude_squared,
    Vec3.dot]
  constructor <;> (ext <;> simp <;> norm_num)

theorem min_mirror :
    min_hit_record mirrorWorld mirrorRay =
      some (mirrorHit, ⟨⟨1, 1, 1⟩, MaterialType.metal 0⟩) := by
  simp [min_hit_record, mirrorWorld, mirrorSphere, scanStep, hit_mirror,
    mirrorMat]

theorem hit_mirror2 (m : Material) :
    hit_sphere mirrorRay2 ⟨⟨0, -2, 0⟩, 1, m⟩ = none := by
  simp only [hit_sphere, mirrorRay2,
    Vec3.dot, Vec3.sub_x, Vec3.sub_y, Vec3.sub_z, SHADOW_ACNE_FUDGE_CONSTANT]
  norm_num [sqrt_four]

theorem min_mirror2 : min_hit_record mirrorWorld mirrorRay2 = none := by
  simp [min_hit_record, mirrorWorld, mirrorSphere, scanStep, hit_mirror2]

/-! One-step unfolding laws of the bounce loop. -/

theorem loop_step_none (world : World) (bg : Rgb) (fuel : ℕ) (ray : Ray)
    (rng : Rng) (color : Rgb) (h : min_hit_record world ray = none) :
    rayCastLoop world bg (fuel + 1) ray rng color = (color * bg, rng) := by
  simp [rayCastLoop, h]

theorem loop_step_lambertian (world : World) (bg : Rgb) (fuel : ℕ)
    (ray : Ray) (rng : Rng) (color : Rgb) (hr : HitRecord) (albedo : Rgb)
    (h : min_hit_record world ray =
      some (hr, ⟨albedo, MaterialType.lambertian⟩)) :
    rayCastLoop world bg (fuel + 1) ray rng color =
      rayCastLoop world bg fuel
        ⟨hr.intersection_point,
          (hr.surface_normal + rng.rand_unit_vec3.1).normalized⟩
        rng.rand_unit_vec3.2 (color * albedo) := by
  simp [rayCastLoop, h]

theorem loop_step_metal (world : World) (bg : Rgb) (fuel : ℕ)
    (ray : Ray) (rng : Rng) (color : Rgb) (hr : HitRecord) (albedo : Rgb)
    (fuzz : ℝ)
    (h : min_hit_record world ray =
      some (hr, ⟨albedo, MaterialType.metal fuzz⟩)) :
    rayCastLoop world bg (fuel + 1) ray rng color =
      if (reflected ray.direction hr.surface_normal
            + fuzz • rng.rand_vec3_in_unit_sphere.1).dot hr.surface_normal
          > 0 then
        rayCastLoop world bg fuel
          ⟨hr.intersection_point,
            (reflected ray.direction hr.surface_normal
              + fuzz • rng.rand_vec3_in_unit_sphere.1).normalized⟩
          rng.rand_vec3_in_unit_sphere.2 (color * albedo)
      else
        ((color * albedo) * Rgb.broadcast 0,
          rng.rand_vec3_in_unit_sphere.2) := by
  simp only [rayCastLoop, h]

theorem spec_loop_step_none (world : World) (fuel : ℕ) (ray : Ray)
    (rng : Rng) (color : Rgb) (h : min_hit_record world ray = none) :
    rayCastLoopSpecCurrentSky world (fuel + 1) ray rng color =
      (color * background_color ray.direction, rng) := by
  simp [rayCastLoopSpecCurrentSky, h]

theorem bg_eval_down : background_color (⟨0, -1, 0⟩ : Vec3) = Rgb.broadcast 1 := by
  simp only [background_color, Rgb.lerp, Rgb.clamp01]
  norm_num
  ext <;> simp <;> norm_num

theorem bg_eval_up : background_color (⟨0, 1, 0⟩ : Vec3) = ⟨0.5, 0.7, 1⟩ := by
  simp only [background_color, Rgb.lerp, Rgb.clamp01]
  norm_num
  ext <;> simp <;> norm_num

theorem normalized_unit_y : (⟨0, 1, 0⟩ : Vec3).normalized = ⟨0, 1, 0⟩ := by
  simp only [Vec3.normalized, Vec3.magnitude, Vec3.magnitude_squared, Vec3.dot]
  norm_num
  ext <;> simp

theorem mirror_perturbed :
    reflected mirrorRay.direction mirrorHit.surface_normal
      + (0:ℝ) • constRng.rand_vec3_in_unit_sphere.1 = ⟨0, 1, 0⟩ := by
  simp only [reflected, mirrorRay, mirrorHit, constRng,
    Rng.rand_vec3_in_unit_sphere, Vec3.dot]
  ext <;> simp <;> norm_num

theorem ray_cast_mirror_eval :
    (ray_cast mirrorRay mirrorWorld constRng).1 = Rgb.broadcast 1 := by
  rw [ray_cast, show MAX_DEPTH = 99 + 1 from rfl,
    loop_step_metal _ _ _ _ _ _ _ _ _ min_mirror, mirror_perturbed,
    if_pos (by simp [Vec3.dot, mirrorHit]), normalized_unit_y,
    show (⟨mirrorHit.intersection_point, ⟨0, 1, 0⟩⟩ : Ray) = mirrorRay2
      from rfl,
    show (99:ℕ) = 98 + 1 from rfl,
    loop_step_none _ _ _ _ _ _ min_mirror2,
    show mirrorRay.direction = (⟨0, -1, 0⟩ : Vec3) from rfl, bg_eval_down]
  ext <;> simp

theorem spec_loop_step_metal (world : World) (fuel : ℕ)
    (ray : Ray) (rng : Rng) (color : Rgb) (hr : HitRecord) (albedo : Rgb)
    (fuzz : ℝ)
    (h : min_hit_record world ray =
      some (hr, ⟨albedo, MaterialType.metal fuzz⟩)) :
    rayCastLoopSpecCurrentSky world (fuel + 1) ray rng color =
      if (reflected ray.direction hr.surface_normal
            + fuzz • rng.rand_vec3_in_unit_sphere.1).dot hr.surface_normal
          > 0 then
        rayCastLoopSpecCurrentSky world fuel
          ⟨hr.intersection_point,
            (reflected ray.direction hr.surface_normal
              + fuzz • rng.rand_vec3_in_unit_sphere.1).normalized⟩
          rng.rand_vec3_in_unit_sphere.2 (color * albedo)
      else
        ((color * albedo) * Rgb.broadcast 0,
          rng.rand_vec3_in_unit_sphere.2) := by
  simp only [rayCastLoopSpecCurrentSky, h]

theorem spec_ray_cast_mirror_eval :
    (ray_cast_spec_current_sky mirrorRay mirrorWorld constRng).1 =
      ⟨0.5, 0.7, 1⟩ := by
  rw [ray_cast_spec_current_sky, show MAX_DEPTH = 99 + 1 from rfl,
    spec_loop_step_metal _ _ _ _ _ _ _ _ min_mirror, mirror_perturbed,
    if_pos (by simp [Vec3.dot, mirrorHit]), normalized_unit_y,
    show (⟨mirrorHit.intersection_point, ⟨0, 1, 0⟩⟩ : Ray) = mirrorRay2
      from rfl,
    show (99:ℕ) = 98 + 1 from rfl,
    spec_loop_step_none _ _ _ _ _ min_mirror2,
    show mirrorRay2.direction = (⟨0, 1, 0⟩ : Vec3) from rfl, bg_eval_up]
  ext <;> simp

/-! The claims. -/

/-- C1, counterexample: the loop translated from the source and the loop the
spec's escape sentence describes (sky gradient from the ray current at the
escaping iteration) disagree on a concrete one-bounce mirror scene: the
source multiplies by the gradient of the initial downward ray (white), the
spec sentence demands the gradient of the escaped upward ray (sky-blue). -/
theorem c1_counterexample :
    ray_cast mirrorRay mirrorWorld constRng ≠
      ray_cast_spec_current_sky mirrorRay mirrorWorld constRng := by
  intro h
  have h1 : (ray_cast mirrorRay mirrorWorld constRng).1 =
      (ray_cast_spec_current_sky mirrorRay mirrorWorld constRng).1 :=
    congrArg Prod.fst h
  rw [ray_cast_mirror_eval, spec_ray_cast_mirror_eval] at h1
  have h2 : (Rgb.broadcast 1).r = (⟨0.5, 0.7, 1⟩ : Rgb).r := congrArg Rgb.r h1
  simp only [Rgb.broadcast_r] at h2
  norm_num at h2

/-- C1, amended: when the current ray finds no hit the loop terminates,
multiplying the accumulated color by the white-to-sky-blue interpolant of
the INITIAL ray's vertical direction component — `ray_cast` computes the
gradient once, before the loop, from the ray it was called with. -/
theorem c1_theorem (world : World) (ray₀ ray : Ray) (rng : Rng)
    (color : Rgb) (fuel : ℕ) (h : min_hit_record world ray = none) :
    rayCastLoop world (background_color ray₀.direction) (fuel + 1) ray rng
        color =
      (color * background_color ray₀.direction, rng) ∧
    ray_cast ray₀ world rng =
      rayCastLoop world (background_color ray₀.direction) MAX_DEPTH ray₀ rng
        (Rgb.broadcast 1) :=
  ⟨loop_step_none _ _ _ _ _ _ h, rfl⟩

/-- C1, witness: the amended claim applied to the concrete mirror scene with
the escaped upward ray. -/
theorem c1_witness :
    min_hit_record mirrorWorld mirrorRay2 = none ∧
    rayCastLoop mirrorWorld (background_color mirrorRay.direction) (0 + 1)
        mirrorRay2 constRng (Rgb.broadcast 1) =
      (Rgb.broadcast 1 * background_color mirrorRay.direction, constRng) :=
  ⟨min_mirror2,
    (c1_theorem mirrorWorld mirrorRay mirrorRay2 constRng (Rgb.broadcast 1) 0
      min_mirror2).1⟩

/-- C2, counterexample: two spheres with identical geometry are hit at
exactly equal distance, yet the scan selects the material of the SECOND
sphere of the scene, not the first as the claim states. -/
theorem c2_counterexample :
    hit_sphere tieRay tieSphereA = some tieHit ∧
    hit_sphere tieRay tieSphereB = some tieHit ∧
    min_hit_record tieWorld tieRay = some (tieHit, tieSphereB.material) ∧
    min_hit_record tieWorld tieRay ≠ some (tieHit, tieSphereA.material) := by
  refine ⟨hit_tie _, hit_tie _, min_tie, ?_⟩
  rw [min_tie]
  intro h
  rw [Option.some_inj, Prod.ext_iff] at h
  have h2 : tieMatB.color.g = tieMatA.color.g := congrArg (fun m => m.color.g) h.2
  simp only [tieMatA, tieMatB] at h2
  norm_num at h2

/-- C2, amended: when two spheres are hit at exactly equal distance, the
sphere that comes LATER in the scene's iteration order is selected — the
scan replaces the incumbent unless its distance is strictly smaller. -/
theorem c2_theorem (s₁ s₂ : Sphere) (ray : Ray) (hr₁ hr₂ : HitRecord)
    (h₁ : hit_sphere ray s₁ = some hr₁) (h₂ : hit_sphere ray s₂ = some hr₂)
    (heq : hr₁.distance = hr₂.distance) :
    min_hit_record ⟨[s₁, s₂]⟩ ray = some (hr₂, s₂.material) := by
  simp only [min_hit_record, List.foldl, scanStep, h₁, h₂, heq, lt_irrefl,
    if_false]

/-- C2, witness: the amended claim applied to the concrete equal-distance
scene. -/
theorem c2_witness :
    tieHit.distance = tieHit.distance ∧
    min_hit_record ⟨[tieSphereA, tieSphereB]⟩ tieRay =
      some (tieHit, tieSphereB.material) :=
  ⟨rfl, c2_theorem tieSphereA tieSphereB tieRay tieHit tieHit (hit_tie _)
    (hit_tie _) rfl⟩

/-- C5: for a metal material, the scatter step forms
`reflected = incoming - 2 (incoming . normal) normal`, perturbs it by
`fuzz` times a unit-ball sample, absorbs the path (the accumulated color
becomes black and the loop stops) exactly when the perturbed direction's
dot with the normal is not positive, and otherwise continues with the
normalized perturbed direction and albedo attenuation. -/
theorem c5_theorem (world : World) (bg : Rgb) (fuel : ℕ) (ray : Ray)
    (rng : Rng) (color : Rgb) (hr : HitRecord) (albedo : Rgb) (fuzz : ℝ)
    (h : min_hit_record world ray =
      some (hr, ⟨albedo, MaterialType.metal fuzz⟩)) :
    reflected ray.direction hr.surface_normal =
      ray.direction
        - (2 * ray.direction.dot hr.surface_normal) • hr.surface_normal ∧
    rayCastLoop world bg (fuel + 1) ray rng color =
      (if (reflected ray.direction hr.surface_normal
            + fuzz • rng.rand_vec3_in_unit_sphere.1).dot hr.surface_normal
          > 0 then
        rayCastLoop world bg fuel
          ⟨hr.intersection_point,
            (reflected ray.direction hr.surface_normal
              + fuzz • rng.rand_vec3_in_unit_sphere.1).normalized⟩
          rng.rand_vec3_in_unit_sphere.2 (color * albedo)
      else
        ((color * albedo) * Rgb.broadcast 0,
          rng.rand_vec3_in_unit_sphere.2)) ∧
    (color * albedo) * Rgb.broadcast 0 = Rgb.broadcast 0 :=
  ⟨rfl, loop_step_metal _ _ _ _ _ _ _ _ _ h, by ext <;> simp⟩

/-- C5, witness: the metal scatter law applied to the concrete mirror
scene. -/
theorem c5_witness :
    min_hit_record mirrorWorld mirrorRay =
      some (mirrorHit, ⟨⟨1, 1, 1⟩, MaterialType.metal 0⟩) ∧
    (Rgb.broadcast 1 * ⟨1, 1, 1⟩) * Rgb.broadcast 0 = Rgb.broadcast 0 :=
  ⟨min_mirror,
    (c5_theorem mirrorWorld (Rgb.broadcast 1) 0 mirrorRay constRng
      (Rgb.broadcast 1) mirrorHit ⟨1, 1, 1⟩ 0 min_mirror).2.2⟩

/-- C6: for a Lambertian material the loop always continues with a new ray
(never absorbs), whose direction is `normalize(normal + u)` where `u` is the
unit-ball sample normalized to unit length, and the attenuation multiplied
into the accumulated color is the material's albedo. -/
theorem c6_theorem (world : World) (bg : Rgb) (fuel : ℕ) (ray : Ray)
    (rng : Rng) (color : Rgb) (hr : HitRecord) (albedo : Rgb)
    (h : min_hit_record world ray =
      some (hr, ⟨albedo, MaterialType.lambertian⟩)) :
    rayCastLoop world bg (fuel + 1) ray rng color =
      rayCastLoop world bg fuel
        ⟨hr.intersection_point,
          (hr.surface_normal + rng.rand_unit_vec3.1).normalized⟩
        rng.rand_unit_vec3.2 (color * albedo) ∧
    rng.rand_unit_vec3.1 = (rng.rand_vec3_in_unit_sphere.1).normalized :=
  ⟨loop_step_lambertian _ _ _ _ _ _ _ _ h, rfl⟩

/-- C3: the intersection test returns None exactly when the discriminant is
not positive, or neither quadratic root exceeds the shadow-acne epsilon. -/
theorem c3_theorem : ∀ (ray : Ray) (sphere : Sphere),
    hit_sphere ray sphere = none ↔
      hitDiscriminant ray sphere ≤ 0 ∨
        (hitRootNeg ray sphere ≤ SHADOW_ACNE_FUDGE_CONSTANT ∧
          hitRootPos ray sphere ≤ SHADOW_ACNE_FUDGE_CONSTANT) := by
  intro ray sphere
  simp only [hit_sphere, hitDiscriminant, hitRootNeg, hitRootPos]
  split_ifs with hd h1 h2
  · exact iff_of_false (by simp) (by rintro (hc | ⟨hneg, _⟩) <;> linarith)
  · exact iff_of_false (by simp) (by rintro (hc | ⟨_, hpos⟩) <;> linarith)
  · exact iff_of_true rfl (Or.inr ⟨by linarith, by linarith⟩)
  · exact iff_of_true rfl (Or.inl (by linarith))

theorem quadratic_root (a b c t : ℝ) (ha : a ≠ 0) (hdisc : 0 ≤ b*b - 4*a*c)
    (ht : t = (-b - Real.sqrt (b*b - 4*a*c)) / (2*a) ∨
      t = (-b + Real.sqrt (b*b - 4*a*c)) / (2*a)) :
    a * (t*t) + b*t + c = 0 := by
  have hs : Real.sqrt (b*b - 4*a*c) * Real.sqrt (b*b - 4*a*c) =
      b*b - 4*a*c := Real.mul_self_sqrt hdisc
  rcases ht with h | h <;> subst h <;> field_simp <;> nlinarith [hs]

/-- A point of the ray whose parameter solves the sphere's quadratic lies on
the sphere's surface, and its outward normal is unit length. -/
theorem hit_record_props (ray : Ray) (sphere : Sphere) (t : ℝ)
    (hrad : 0 < sphere.radius)
    (hroot : ray.direction.dot ray.direction * (t*t)
        + 2 * (ray.origin - sphere.origin).dot ray.direction * t
        + ((ray.origin - sphere.origin).dot (ray.origin - sphere.origin)
            - sphere.radius * sphere.radius) = 0) :
    ((ray.origin + t • ray.direction) - sphere.origin).magnitude =
      sphere.radius ∧
    (((ray.origin + t • ray.direction) - sphere.origin).normalized).magnitude
      = 1 := by
  have hdot : Vec3.dot ((ray.origin + t • ray.direction) - sphere.origin)
      ((ray.origin + t • ray.direction) - sphere.origin) =
      sphere.radius * sphere.radius := by
    simp only [Vec3.dot, Vec3.sub_x, Vec3.sub_y, Vec3.sub_z, Vec3.add_x,
      Vec3.add_y, Vec3.add_z, Vec3.smul_x, Vec3.smul_y, Vec3.smul_z] at hroot ⊢
    linear_combination hroot
  have hmag : ((ray.origin + t • ray.direction) - sphere.origin).magnitude =
      sphere.radius := by
    rw [Vec3.magnitude, Vec3.magnitude_squared, hdot,
      Real.sqrt_mul_self hrad.le]
  exact ⟨hmag, Vec3.magnitude_normalized _ (by rw [hmag]; exact hrad.ne')⟩

/-- C4: whenever `hit_sphere` reports a hit for a unit-direction ray and a
positive-radius sphere, the returned distance exceeds the shadow-acne
epsilon and is the smallest quadratic root that does, the intersection
point lies on the sphere's surface, and the surface normal is unit
length. -/
theorem c4_theorem (ray : Ray) (sphere : Sphere) (hr : HitRecord)
    (hdir : ray.direction.magnitude = 1) (hrad : 0 < sphere.radius)
    (hhit : hit_sphere ray sphere = some hr) :
    SHADOW_ACNE_FUDGE_CONSTANT < hr.distance ∧
    (hr.distance = hitRootNeg ray sphere ∨
      hr.distance = hitRootPos ray sphere) ∧
    (∀ t, (t = hitRootNeg ray sphere ∨ t = hitRootPos ray sphere) →
      SHADOW_ACNE_FUDGE_CONSTANT < t → hr.distance ≤ t) ∧
    (hr.intersection_point - sphere.origin).magnitude = sphere.radius ∧
    hr.surface_normal.magnitude = 1 := by
  have ha : ray.direction.dot ray.direction = 1 :=
    Vec3.dot_self_of_magnitude_eq_one _ hdir
  simp only [hit_sphere] at hhit
  simp only [hitRootNeg, hitRootPos, hitDiscriminant]
  split_ifs at hhit with hd h1 h2
  · have hrec := Option.some.inj hhit
    subst hrec
    have hroot := quadratic_root _ _ _ _ (by rw [ha]; norm_num) (le_of_lt hd)
      (Or.inl rfl)
    obtain ⟨hon, hnorm⟩ := hit_record_props ray sphere _ hrad hroot
    refine ⟨h1, Or.inl rfl, ?_, hon, hnorm⟩
    rintro t (rfl | rfl) ht
    · exact le_refl _
    · rw [ha]
      have hs := Real.sqrt_nonneg
          (2 * (ray.origin - sphere.origin).dot ray.direction *
            (2 * (ray.origin - sphere.origin).dot ray.direction) -
          4 * (ray.direction.dot ray.direction) *
            ((ray.origin - sphere.origin).dot (ray.origin - sphere.origin) -
              sphere.radius * sphere.radius))
      rw [ha] at hs
      have h2a : (0:ℝ) < 2 * 1 := by norm_num
      rw [div_le_div_iff h2a h2a]
      nlinarith [hs]
  · have hrec := Option.some.inj hhit
    subst hrec
    have hroot := quadratic_root _ _ _ _ (by rw [ha]; norm_num) (le_of_lt hd)
      (Or.inr rfl)
    obtain ⟨hon, hnorm⟩ := hit_record_props ray sphere _ hrad hroot
    refine ⟨h2, Or.inr rfl, ?_, hon, hnorm⟩
    rintro t (rfl | rfl) ht
    · exact absurd ht h1
    · exact le_refl _

/-- C4, witness: the hit guarantees applied to a concrete unit-direction ray
and unit sphere. -/
theorem c4_witness :
    tieRay.direction.magnitude = 1 ∧ 0 < tieSphereA.radius ∧
    SHADOW_ACNE_FUDGE_CONSTANT < tieHit.distance ∧
    (tieHit.intersection_point - tieSphereA.origin).magnitude =
      tieSphereA.radius ∧
    tieHit.surface_normal.magnitude = 1 := by
  have hdir : tieRay.direction.magnitude = 1 := by
    simp [tieRay, Vec3.magnitude, Vec3.magnitude_squared, Vec3.dot]
  have hrad : (0:ℝ) < tieSphereA.radius := by norm_num [tieSphereA]
  have h := c4_theorem tieRay tieSphereA tieHit hdir hrad (hit_tie _)
  exact ⟨hdir, hrad, h.1, h.2.2.2.1, h.2.2.2.2⟩

theorem pixel_pack (p : Pixel) (h1 : p.red < 256) (h2 : p.green < 256)
    (h3 : p.blue < 256) :
    p.to_u32 = p.red * 2 ^ 16 + p.green * 2 ^ 8 + p.blue := by
  have e8 : (2:ℕ) ^ 8 = 256 := rfl
  have e16 : (2:ℕ) ^ 16 = 65536 := rfl
  have h3' : p.blue < 2 ^ 8 := by rw [e8]; exact h3
  have hlt : 2 ^ 8 * p.green + p.blue < 2 ^ 16 := by
    rw [e8, e16]; omega
  simp only [Pixel.to_u32, Nat.shiftLeft_eq, pow_zero, mul_one,
    Nat.lor_assoc]
  rw [mul_comm p.red (2 ^ 16), mul_comm p.green (2 ^ 8),
    ← Nat.mul_add_lt_is_or h3' p.green, ← Nat.mul_add_lt_is_or hlt p.red]
  ring

theorem white_average :
    (Rgb.broadcast 4 / ((4:ℕ) : ℝ)).map Real.sqrt = Rgb.broadcast 1 := by
  ext <;> simp [Rgb.map] <;> norm_num

theorem white_quantized :
    Pixel.from_vek_color (Rgb.broadcast 1) = ⟨255, 255, 255⟩ := by
  have hfloor : ⌊(Rgb.clamp01 1 * 255.99 : ℝ)⌋ = 255 := by
    rw [show Rgb.clamp01 1 = 1 by simp [Rgb.clamp01]]
    rw [Int.floor_eq_iff]
    norm_num
  simp [Pixel.from_vek_color, f32_as_u8, hfloor]

theorem black_quantized :
    Pixel.from_vek_color (Rgb.broadcast 0) = ⟨0, 0, 0⟩ := by
  have hfloor : ⌊(Rgb.clamp01 0 * 255.99 : ℝ)⌋ = 0 := by
    rw [show Rgb.clamp01 0 = 0 by simp [Rgb.clamp01]]
    norm_num
  simp [Pixel.from_vek_color, f32_as_u8, hfloor]

/-- C8: the per-pixel pipeline divides the accumulated color by the sample
count, square-roots each channel, clamps to `[0,1]`, scales by 255.99 with
truncation to 8 bits, and packs red in bits 16-23, green in 8-15, blue in
0-7; a per-sample average of pure white quantizes to `(255,255,255)` and
pure black to `(0,0,0)`. -/
theorem c8_theorem :
    (∀ (p : Pixel), p.red < 256 → p.green < 256 → p.blue < 256 →
      p.to_u32 = p.red * 2 ^ 16 + p.green * 2 ^ 8 + p.blue) ∧
    postProcess (Rgb.broadcast 4) 4 = 255 * 2 ^ 16 + 255 * 2 ^ 8 + 255 ∧
    postProcess (Rgb.broadcast 0) 4 = 0 := by
  refine ⟨pixel_pack, ?_, ?_⟩
  · show (Pixel.from_vek_color
        ((Rgb.broadcast 4 / ((4:ℕ) : ℝ)).map Real.sqrt)).to_u32 = _
    rw [white_average, white_quantized]
    rfl
  · show (Pixel.from_vek_color
        ((Rgb.broadcast 0 / ((4:ℕ) : ℝ)).map Real.sqrt)).to_u32 = _
    rw [show (Rgb.broadcast 0 / ((4:ℕ) : ℝ)).map Real.sqrt = Rgb.broadcast 0
      by ext <;> simp [Rgb.map], black_quantized]
    rfl

/-- C8, witness: the packing law applied to a concrete pixel. -/
theorem c8_witness :
    (1:ℕ) < 256 ∧
    Pixel.to_u32 ⟨1, 2, 3⟩ = 1 * 2 ^ 16 + 2 * 2 ^ 8 + 3 :=
  ⟨by norm_num,
    c8_theorem.1 ⟨1, 2, 3⟩ (by norm_num) (by norm_num) (by norm_num)⟩

theorem count_fst (world : World) (bg : Rgb) :
    ∀ (fuel : ℕ) (ray : Ray) (rng : Rng) (color : Rgb),
      (rayCastLoopCount world bg fuel ray rng color).1 =
        rayCastLoop world bg fuel ray rng color := by
  intro fuel
  induction fuel with
  | zero => intro ray rng color; rfl
  | succ n ih =>
    intro ray rng color
    simp only [rayCastLoopCount, rayCastLoop]
    cases hmin : min_hit_record world ray with
    | none => rfl
    | some pr =>
      obtain ⟨hr, col, mt⟩ := pr
      cases mt with
      | lambertian => simpa using ih _ _ _
      | metal fuzz =>
        by_cases hc : (reflected ray.direction hr.surface_normal
            + fuzz • rng.rand_vec3_in_unit_sphere.1).dot hr.surface_normal
            > 0
        · simpa [hc] using ih _ _ _
        · simp [hc]

theorem count_le (world : World) (bg : Rgb) :
    ∀ (fuel : ℕ) (ray : Ray) (rng : Rng) (color : Rgb),
      (rayCastLoopCount world bg fuel ray rng color).2 ≤ fuel := by
  intro fuel
  induction fuel with
  | zero => intro ray rng color; exact Nat.le_refl 0
  | succ n ih =>
    intro ray rng color
    simp only [rayCastLoopCount]
    cases hmin : min_hit_record world ray with
    | none => simp
    | some pr =>
      obtain ⟨hr, col, mt⟩ := pr
      cases mt with
      | lambertian => simpa using Nat.succ_le_succ (ih _ _ _)
      | metal fuzz =>
        by_cases hc : (reflected ray.direction hr.surface_normal
            + fuzz • rng.rand_vec3_in_unit_sphere.1).dot hr.surface_normal
            > 0
        · simpa [hc] using Nat.succ_le_succ (ih _ _ _)
        · simp [hc]

/-- C7: the bounce loop runs at most MAX_DEPTH (100) iterations — the
instrumented loop's iteration count is bounded by MAX_DEPTH and computes
the same color — and when the fuel is exhausted without escape or
absorption the loop returns the accumulated color as attenuated so far. -/
theorem c7_theorem : ∀ (ray : Ray) (world : World) (rng : Rng),
    (ray_cast_count ray world rng).1 = ray_cast ray world rng ∧
    (ray_cast_count ray world rng).2 ≤ MAX_DEPTH ∧
    ∀ (bg : Rgb) (ray' : Ray) (rng' : Rng) (color : Rgb),
      rayCastLoop world bg 0 ray' rng' color = (color, rng') :=
  fun ray world rng =>
    ⟨count_fst world (background_color ray.direction) MAX_DEPTH ray rng
        (Rgb.broadcast 1),
      count_le world (background_color ray.direction) MAX_DEPTH ray rng
        (Rgb.broadcast 1),
      fun _bg _ray _rng _color => rfl⟩

/-- C9: the frame renderer is a deterministic function of the seed, the
dimensions and the scene — two invocations with equal arguments produce
identical buffers; each pixel's generator is derived from the shared seed
and the pixel's linear index alone. -/
theorem c9_theorem (mkRng : ℕ → Rng) (seed₁ seed₂ w₁ w₂ h₁ h₂ : ℕ)
    (world₁ world₂ : World) (hs : seed₁ = seed₂) (hw : w₁ = w₂)
    (hh : h₁ = h₂) (hworld : world₁ = world₂) :
    draw mkRng seed₁ w₁ h₁ world₁ = draw mkRng seed₂ w₂ h₂ world₂ := by
  subst hs; subst hw; subst hh; subst hworld; rfl

/-- C9, witness: determinism at a concrete seed, size and scene. -/
theorem c9_witness :
    (5:ℕ) = 5 ∧
    draw (fun _ => constRng) 5 2 3 mirrorWorld =
      draw (fun _ => constRng) 5 2 3 mirrorWorld :=
  ⟨rfl, c9_theorem (fun _ => constRng) 5 5 2 2 3 3 mirrorWorld mirrorWorld
    rfl rfl rfl rfl⟩

theorem bg_inUnit (dir : Vec3) : (background_color dir).inUnit := by
  simp only [background_color]
  have hf0 : (0:ℝ) ≤ Rgb.clamp01 (1 - (1 - 0.5 * (dir.y + 1))) :=
    le_max_left _ _
  have hf1 : Rgb.clamp01 (1 - (1 - 0.5 * (dir.y + 1))) ≤ 1 :=
    max_le (by norm_num) (min_le_left _ _)
  simp only [Rgb.inUnit, Rgb.lerp, Rgb.add_r, Rgb.add_g, Rgb.add_b,
    Rgb.mul_r, Rgb.mul_g, Rgb.mul_b, Rgb.sub_r, Rgb.sub_g, Rgb.sub_b,
    Rgb.broadcast_r, Rgb.broadcast_g, Rgb.broadcast_b]
  refine ⟨?_, ?_, ?_, ?_, ?_, ?_⟩ <;> nlinarith [hf0, hf1]

theorem mul_inUnit {a c : Rgb} (ha : a.inUnit) (hc : c.inUnit) :
    (a * c).inUnit := by
  obtain ⟨h1, h2, h3, h4, h5, h6⟩ := ha
  obtain ⟨g1, g2, g3, g4, g5, g6⟩ := hc
  refine ⟨?_, ?_, ?_, ?_, ?_, ?_⟩ <;>
    simp only [Rgb.mul_r, Rgb.mul_g, Rgb.mul_b] <;> nlinarith

theorem one_inUnit : (Rgb.broadcast 1).inUnit := by
  refine ⟨?_, ?_, ?_, ?_, ?_, ?_⟩ <;> norm_num

theorem zero_mul_inUnit (c : Rgb) : (c * Rgb.broadcast 0).inUnit := by
  refine ⟨?_, ?_, ?_, ?_, ?_, ?_⟩ <;> simp

theorem scanStep_material (ray : Ray) (acc : Option (HitRecord × Material))
    (s : Sphere) (hr : HitRecord) (m : Material)
    (h : scanStep ray acc s = some (hr, m)) :
    acc = some (hr, m) ∨ m = s.material := by
  cases hh : hit_sphere ray s with
  | none =>
    simp only [scanStep, hh] at h
    exact Or.inl h
  | some hit =>
    cases acc with
    | none =>
      simp only [scanStep, hh, Option.some_inj, Prod.mk.injEq] at h
      exact Or.inr h.2.symm
    | some pr =>
      obtain ⟨mhr, mcolor⟩ := pr
      by_cases hlt : mhr.distance < hit.distance
      · simp only [scanStep, hh, hlt, if_true] at h
        exact Or.inl h
      · simp only [scanStep, hh, hlt, if_false, Option.some_inj,
          Prod.mk.injEq] at h
        exact Or.inr h.2.symm

theorem scan_material_mem (ray : Ray) :
    ∀ (l : List Sphere) (acc : Option (HitRecord × Material))
      (hr : HitRecord) (m : Material),
      l.foldl (scanStep ray) acc = some (hr, m) →
        (∃ hr₀, acc = some (hr₀, m)) ∨ ∃ s ∈ l, m = s.material := by
  intro l
  induction l with
  | nil => intro acc hr m h; exact Or.inl ⟨hr, h⟩
  | cons s rest ih =>
    intro acc hr m h
    simp only [List.foldl_cons] at h
    rcases ih _ hr m h with ⟨hr₀, hacc⟩ | ⟨s', hmem, hm⟩
    · rcases scanStep_material ray acc s hr₀ m hacc with h' | h'
      · exact Or.inl ⟨hr₀, h'⟩
      · exact Or.inr ⟨s, List.mem_cons_self _ _, h'⟩
    · exact Or.inr ⟨s', List.mem_cons_of_mem _ hmem, hm⟩

/-- The material a nearest-hit scan selects belongs to a sphere of the
scene. -/
theorem min_hit_material_mem (world : World) (ray : Ray) (hr : HitRecord)
    (m : Material) (h : min_hit_record world ray = some (hr, m)) :
    ∃ s ∈ world.spheres, m = s.material := by
  rcases scan_material_mem ray world.spheres none hr m h with ⟨hr₀, h0⟩ | hm
  · exact absurd h0 (by simp)
  · exact hm

theorem loop_inUnit (world : World) (bg : Rgb) (hbg : bg.inUnit)
    (halb : ∀ s ∈ world.spheres, s.material.color.inUnit) :
    ∀ (fuel : ℕ) (ray : Ray) (rng : Rng) (color : Rgb), color.inUnit →
      ((rayCastLoop world bg fuel ray rng color).1).inUnit := by
  intro fuel
  induction fuel with
  | zero => intro ray rng color hc; exact hc
  | succ n ih =>
    intro ray rng color hc
    simp only [rayCastLoop]
    cases hmin : min_hit_record world ray with
    | none => exact mul_inUnit hc hbg
    | some pr =>
      obtain ⟨hr, m⟩ := pr
      have hmat : m.color.inUnit := by
        obtain ⟨s, hmem, hm⟩ := min_hit_material_mem world ray hr m hmin
        rw [hm]
        exact halb s hmem
      obtain ⟨col, mt⟩ := m
      cases mt with
      | lambertian => exact ih _ _ _ (mul_inUnit hc hmat)
      | metal fuzz =>
        by_cases hrefl : (reflected ray.direction hr.surface_normal
            + fuzz • rng.rand_vec3_in_unit_sphere.1).dot hr.surface_normal
            > 0
        · simp only [hrefl, if_true]
          exact ih _ _ _ (mul_inUnit hc hmat)
        · simp only [hrefl, if_false]
          exact zero_mul_inUnit _

/-- C10: when every material albedo channel lies in `[0,1]` and the initial
ray has unit direction, every channel of the traced color lies in `[0,1]`:
the color starts white and is only multiplied by albedos, the sky
interpolant, or zero. -/
theorem c10_theorem (world : World) (ray : Ray) (rng : Rng)
    (halb : ∀ s ∈ world.spheres, s.material.color.inUnit)
    (hdir : ray.direction.magnitude = 1) :
    ((ray_cast ray world rng).1).inUnit :=
  loop_inUnit world (background_color ray.direction)
    (bg_inUnit ray.direction) halb MAX_DEPTH ray rng (Rgb.broadcast 1)
    one_inUnit

/-- C10, witness: the range invariant at the concrete mirror scene. -/
theorem c10_witness :
    mirrorRay.direction.magnitude = 1 ∧
    ((ray_cast mirrorRay mirrorWorld constRng).1).inUnit := by
  have hdir : mirrorRay.direction.magnitude = 1 := by
    simp [mirrorRay, Vec3.magnitude, Vec3.magnitude_squared, Vec3.dot]
  refine ⟨hdir, c10_theorem mirrorWorld mirrorRay constRng ?_ hdir⟩
  intro s hs
  rw [show mirrorWorld.spheres = [mirrorSphere] from rfl,
    List.mem_singleton] at hs
  subst hs
  refine ⟨?_, ?_, ?_, ?_, ?_, ?_⟩ <;>
    norm_num [mirrorSphere, mirrorMat]

/-- C6, witness: the Lambertian scatter law applied to the concrete
two-sphere scene. -/
theorem c6_witness :
    min_hit_record tieWorld tieRay =
      some (tieHit, ⟨⟨0, 1, 0⟩, MaterialType.lambertian⟩) ∧
    constRng.rand_unit_vec3.1 =
      (constRng.rand_vec3_in_unit_sphere.1).normalized :=
  ⟨min_tie,
    (c6_theorem tieWorld (Rgb.broadcast 1) 0 tieRay constRng
      (Rgb.broadcast 1) tieHit ⟨0, 1, 0⟩ min_tie).2⟩

end






